import Mathlib

/-!
Shallow embedding of the extend-this object-composition utility
(source file: extendThis.js) and proofs about its behaviour.

JavaScript objects are modelled as association lists of own enumerable
properties in insertion order (`ObjMap`).  Plain objects used by the
library (sources, targets, the selection map `sourceKeys`, the override
set `overrideKeys`, the selector registry) have no enumerable prototype
properties, so `for (k in o)` iterates exactly the list.  Property
assignment keeps the position of an existing key and appends a new key,
matching JavaScript insertion-order semantics.

Function values are identified by a numeric tag: source objects may hold
`JsValue.fnV id`; the delegate filter rewraps such a value as
`JsValue.boundFnV id` (a closure that applies the function with the
source object as receiver - the captured receiver plays no role in any
statement below, so it is not stored).
-/

namespace ExtendThis

/-- A JavaScript value, restricted to the shapes the library manipulates. -/
inductive JsValue where
  | undefV
  | vnull
  | boolV (b : Bool)
  | numV (n : Int)
  | strV (s : String)
  | objV (m : List (String × JsValue))
  | fnV (id : Nat)
  | boundFnV (id : Nat)
deriving Repr

mutual

/-- Decidable equality for JsValue (written by hand: the automatic
derivation does not handle the nested object payload). -/
def JsValue.decEq : (a b : JsValue) → Decidable (a = b)
  | .undefV, .undefV => isTrue rfl
  | .undefV, .vnull => isFalse (fun h => JsValue.noConfusion h)
  | .undefV, .boolV _ => isFalse (fun h => JsValue.noConfusion h)
  | .undefV, .numV _ => isFalse (fun h => JsValue.noConfusion h)
  | .undefV, .strV _ => isFalse (fun h => JsValue.noConfusion h)
  | .undefV, .objV _ => isFalse (fun h => JsValue.noConfusion h)
  | .undefV, .fnV _ => isFalse (fun h => JsValue.noConfusion h)
  | .undefV, .boundFnV _ => isFalse (fun h => JsValue.noConfusion h)
  | .vnull, .undefV => isFalse (fun h => JsValue.noConfusion h)
  | .vnull, .vnull => isTrue rfl
  | .vnull, .boolV _ => isFalse (fun h => JsValue.noConfusion h)
  | .vnull, .numV _ => isFalse (fun h => JsValue.noConfusion h)
  | .vnull, .strV _ => isFalse (fun h => JsValue.noConfusion h)
  | .vnull, .objV _ => isFalse (fun h => JsValue.noConfusion h)
  | .vnull, .fnV _ => isFalse (fun h => JsValue.noConfusion h)
  | .vnull, .boundFnV _ => isFalse (fun h => JsValue.noConfusion h)
  | .boolV _, .undefV => isFalse (fun h => JsValue.noConfusion h)
  | .boolV _, .vnull => isFalse (fun h => JsValue.noConfusion h)
  | .boolV x, .boolV y =>
      match decEq x y with
      | isTrue h => isTrue (by rw [h])
      | isFalse h => isFalse (fun he => h (by injection he))
  | .boolV _, .numV _ => isFalse (fun h => JsValue.noConfusion h)
  | .boolV _, .strV _ => isFalse (fun h => JsValue.noConfusion h)
  | .boolV _, .objV _ => isFalse (fun h => JsValue.noConfusion h)
  | .boolV _, .fnV _ => isFalse (fun h => JsValue.noConfusion h)
  | .boolV _, .boundFnV _ => isFalse (fun h => JsValue.noConfusion h)
  | .numV _, .undefV => isFalse (fun h => JsValue.noConfusion h)
  | .numV _, .vnull => isFalse (fun h => JsValue.noConfusion h)
  | .numV _, .boolV _ => isFalse (fun h => JsValue.noConfusion h)
  | .numV x, .numV y =>
      match decEq x y with
      | isTrue h => isTrue (by rw [h])
      | isFalse h => isFalse (fun he => h (by injection he))
  | .numV _, .strV _ => isFalse (fun h => JsValue.noConfusion h)
  | .numV _, .objV _ => isFalse (fun h => JsValue.noConfusion h)
  | .numV _, .fnV _ => isFalse (fun h => JsValue.noConfusion h)
  | .numV _, .boundFnV _ => isFalse (fun h => JsValue.noConfusion h)
  | .strV _, .undefV => isFalse (fun h => JsValue.noConfusion h)
  | .strV _, .vnull => isFalse (fun h => JsValue.noConfusion h)
  | .strV _, .boolV _ => isFalse (fun h => JsValue.noConfusion h)
  | .strV _, .numV _ => isFalse (fun h => JsValue.noConfusion h)
  | .strV x, .strV y =>
      match decEq x y with
      | isTrue h => isTrue (by rw [h])
      | isFalse h => isFalse (fun he => h (by injection he))
  | .strV _, .objV _ => isFalse (fun h => JsValue.noConfusion h)
  | .strV _, .fnV _ => isFalse (fun h => JsValue.noConfusion h)
  | .strV _, .boundFnV _ => isFalse (fun h => JsValue.noConfusion h)
  | .objV _, .undefV => isFalse (fun h => JsValue.noConfusion h)
  | .objV _, .vnull => isFalse (fun h => JsValue.noConfusion h)
  | .objV _, .boolV _ => isFalse (fun h => JsValue.noConfusion h)
  | .objV _, .numV _ => isFalse (fun h => JsValue.noConfusion h)
  | .objV _, .strV _ => isFalse (fun h => JsValue.noConfusion h)
  | .objV x, .objV y =>
      match decEqEntries x y with
      | isTrue h => isTrue (by rw [h])
      | isFalse h => isFalse (fun he => h (by injection he))
  | .objV _, .fnV _ => isFalse (fun h => JsValue.noConfusion h)
  | .objV _, .boundFnV _ => isFalse (fun h => JsValue.noConfusion h)
  | .fnV _, .undefV => isFalse (fun h => JsValue.noConfusion h)
  | .fnV _, .vnull => isFalse (fun h => JsValue.noConfusion h)
  | .fnV _, .boolV _ => isFalse (fun h => JsValue.noConfusion h)
  | .fnV _, .numV _ => isFalse (fun h => JsValue.noConfusion h)
  | .fnV _, .strV _ => isFalse (fun h => JsValue.noConfusion h)
  | .fnV _, .objV _ => isFalse (fun h => JsValue.noConfusion h)
  | .fnV x, .fnV y =>
      match decEq x y with
      | isTrue h => isTrue (by rw [h])
      | isFalse h => isFalse (fun he => h (by injection he))
  | .fnV _, .boundFnV _ => isFalse (fun h => JsValue.noConfusion h)
  | .boundFnV _, .undefV => isFalse (fun h => JsValue.noConfusion h)
  | .boundFnV _, .vnull => isFalse (fun h => JsValue.noConfusion h)
  | .boundFnV _, .boolV _ => isFalse (fun h => JsValue.noConfusion h)
  | .boundFnV _, .numV _ => isFalse (fun h => JsValue.noConfusion h)
  | .boundFnV _, .strV _ => isFalse (fun h => JsValue.noConfusion h)
  | .boundFnV _, .objV _ => isFalse (fun h => JsValue.noConfusion h)
  | .boundFnV _, .fnV _ => isFalse (fun h => JsValue.noConfusion h)
  | .boundFnV x, .boundFnV y =>
      match decEq x y with
      | isTrue h => isTrue (by rw [h])
      | isFalse h => isFalse (fun he => h (by injection he))

/-- Decidable equality for object entry lists. -/
def decEqEntries : (a b : List (String × JsValue)) → Decidable (a = b)
  | [], [] => isTrue rfl
  | [], _ :: _ => isFalse (fun h => List.noConfusion h)
  | _ :: _, [] => isFalse (fun h => List.noConfusion h)
  | (k, v) :: r, (k2, v2) :: r2 =>
      match String.decEq k k2, JsValue.decEq v v2, decEqEntries r r2 with
      | isTrue h1, isTrue h2, isTrue h3 => isTrue (by rw [h1, h2, h3])
      | isFalse h1, _, _ => isFalse (fun he => h1 (by injection he with hh ht; injection hh))
      | isTrue _, isFalse h2, _ => isFalse (fun he => h2 (by injection he with hh ht; injection hh))
      | isTrue _, isTrue _, isFalse h3 => isFalse (fun he => h3 (by injection he))
end

instance : DecidableEq JsValue := JsValue.decEq

/-- Decidable equality for Except results, used to evaluate the embedding
at concrete inputs. -/
instance {ε α : Type} [DecidableEq ε] [DecidableEq α] : DecidableEq (Except ε α) :=
  fun a b =>
    match a, b with
    | .error x, .error y =>
        if h : x = y then isTrue (by rw [h])
        else isFalse (fun he => h (by injection he))
    | .ok x, .ok y =>
        if h : x = y then isTrue (by rw [h])
        else isFalse (fun he => h (by injection he))
    | .error _, .ok _ => isFalse (fun he => Except.noConfusion he)
    | .ok _, .error _ => isFalse (fun he => Except.noConfusion he)


/-- An object: own enumerable properties in insertion order. -/
abbrev ObjMap := List (String × JsValue)

/-- JavaScript truthiness (`if (v)`), for the values modelled here. -/
def truthy : JsValue → Bool
  | .undefV => false
  | .vnull => false
  | .boolV b => b
  | .numV n => n != 0
  | .strV s => s ≠ ""
  | .objV _ => true
  | .fnV _ => true
  | .boundFnV _ => true

/-- `typeof v === 'string'` (isString in the source). -/
def isString : JsValue → Bool
  | .strV _ => true
  | _ => false

/-- First binding of a key, if any (JavaScript property read, present case). -/
def lookupVal (m : ObjMap) (k : String) : Option JsValue :=
  (m.find? (fun p => p.1 = k)).map Prod.snd

/-- JavaScript property read: an absent key reads as `undefined`. -/
def lookupJs (m : ObjMap) (k : String) : JsValue :=
  (lookupVal m k).getD .undefV

/-- `k in o` for plain objects: key present. -/
def hasKey (m : ObjMap) (k : String) : Bool :=
  m.any (fun p => p.1 = k)

/-- JavaScript assignment `o[k] = v`: an existing key keeps its position and
gets the new value; a new key is appended. -/
def setKey : ObjMap → String → JsValue → ObjMap
  | [], k, v => [(k, v)]
  | p :: rest, k, v => if p.1 = k then (k, v) :: rest else p :: setKey rest k v

/-- `delete o[k]`. -/
def deleteKey (m : ObjMap) (k : String) : ObjMap :=
  m.filter (fun p => p.1 ≠ k)

/-- The keys of an object, in order. -/
def keysOf (m : ObjMap) : List String :=
  m.map Prod.fst

/-- isEmpty in the source: no own enumerable key. -/
def isEmptyMap (m : ObjMap) : Bool :=
  m.isEmpty

/-- `p` is an initial segment of `s` (sourceKey.indexOf(pfx) === 0),
computed on the character lists so that concrete instances reduce. -/
def strStartsWith (p s : String) : Bool :=
  p.data.isPrefixOf s.data

/-- Drop the first n characters (sourceKey.substring(n)), computed on the
character lists so that concrete instances reduce. -/
def strDrop (s : String) (n : Nat) : String :=
  ⟨s.data.drop n⟩

/-- The regular expressions the library uses, with their test function. -/
inductive Regex where
  | startsWithR (s : String)
  | matchAll
deriving Repr, DecidableEq

/-- `regexp.test(k)`. -/
def Regex.test : Regex → String → Bool
  | .startsWithR s, k => strStartsWith s k
  | .matchAll, _ => true

/-- A filter in the pipeline: the exclude-name filter built by
createExcludeNameFilter, the delegate filter, or a user-supplied filter
(identified by a tag) that leaves the context unchanged and returns the
recorded boolean. -/
inductive Filter where
  | excludeName (r : Regex)
  | delegate
  | user (id : Nat) (pass : Bool)
deriving Repr, DecidableEq

/-- The object passed into a filter (filterContext in the source).
`targetKey = none` models the null sentinel that rejects the property. -/
structure FilterCtx where
  target : ObjMap
  source : ObjMap
  sourceKey : String
  targetKey : Option JsValue
  sourceValue : JsValue
deriving Repr

/-- One filter application: next context and the filter's return value. -/
def applyFilter : Filter → FilterCtx → FilterCtx × Bool
  | .excludeName r, ctx => (ctx, ! r.test ctx.sourceKey)
  | .delegate, ctx =>
      match ctx.sourceValue with
      | .fnV id => ({ ctx with sourceValue := .boundFnV id }, true)
      | _ => (ctx, true)
  | .user _ pass, ctx => (ctx, pass)

/-- The filter loop of modifyTarget: run filters in order; the first falsy
result sets the target key to the null sentinel and breaks. -/
def runFilters : List Filter → FilterCtx → FilterCtx × Bool
  | [], ctx => (ctx, true)
  | f :: fs, ctx =>
      if (applyFilter f ctx).2 then runFilters fs (applyFilter f ctx).1
      else ({ (applyFilter f ctx).1 with targetKey := none }, false)

/-- The errors the library can raise (createErrorsManager).  Messages are
modelled structurally; `typeError` stands for the runtime TypeError the
engine raises when a registry entry holding null is invoked as a function. -/
inductive JsErr where
  | illegalArgument (arg : JsValue) (msg : String)
  | propertyNotFound (key : String)
  | propertyOverride (key : String)
  | typeError (msg : String)
deriving Repr, DecidableEq

/-- The global configuration object. -/
structure Config where
  filename : String
  throwPropertyNotFoundError : Bool
  throwOverrideError : Bool
deriving Repr, DecidableEq

/-- The configuration as initialised in the source. -/
def defaultConfig : Config :=
  { filename := "extendThis.js"
    throwPropertyNotFoundError := true
    throwOverrideError := true }

/-- errorManager.propertyNotFound: raises only when the flag is set. -/
def propertyNotFoundErr (cfg : Config) (k : String) : Option JsErr :=
  if cfg.throwPropertyNotFoundError then some (.propertyNotFound k) else none

/-- errorManager.propertyOverride: raises only when the flag is set. -/
def propertyOverrideErr (cfg : Config) (k : String) : Option JsErr :=
  if cfg.throwOverrideError then some (.propertyOverride k) else none

/-- The selection map (sourceKeys in the source): source property name to
target property name.  The values are JsValues because a rename mapping can
momentarily store a non-string target name before the parser's string check
rejects it. -/
abbrev KeyMap := List (String × JsValue)

/-- sourceKeys[k] !== undefined (negationSelector's membership test). -/
def keyDefined (m : KeyMap) (k : String) : Bool :=
  match lookupJs m k with
  | .undefV => false
  | _ => true

/-- overrideKeys[k] = true: record a key in the override set. -/
def ovInsert (ov : List String) (k : String) : List String :=
  if ov.contains k then ov else ov ++ [k]

/-- `!regexp || regexp.test(key)` in extendSourceKeys. -/
def regexPasses : Option Regex → String → Bool
  | none, _ => true
  | some r, k => r.test k

/-- extendSourceKeys: copy each source key (passing the optional regexp)
into the selection map as an identity mapping. -/
def extendSourceKeys : KeyMap → ObjMap → Option Regex → KeyMap
  | sk, [], _ => sk
  | sk, p :: rest, r =>
      extendSourceKeys (if regexPasses r p.1 then setKey sk p.1 (.strV p.1) else sk) rest r

/-- negationSelector: if no properties are selected yet, select them all
first; then remove the negated property, or report PropertyNotFound
(config-gated) when it is absent. -/
def negationSelector (cfg : Config) (source : ObjMap) (sourceKey : String)
    (sourceKeys : KeyMap) : Except JsErr KeyMap :=
  let sk := if isEmptyMap sourceKeys then extendSourceKeys sourceKeys source none else sourceKeys
  if keyDefined sk sourceKey then .ok (deleteKey sk sourceKey)
  else
    match propertyNotFoundErr cfg sourceKey with
    | some e => .error e
    | none => .ok sk

/-- overrideSelector: select the property under the resolved target key and
mark the (stripped) source key as exempt from override errors. -/
def overrideSelector (sourceKey : String) (targetKey : JsValue)
    (sourceKeys : KeyMap) (overrideKeys : List String) : KeyMap × List String :=
  (setKey sourceKeys sourceKey targetKey, ovInsert overrideKeys sourceKey)

/-- The built-in selector handlers. -/
inductive Selector where
  | negation
  | override
deriving Repr, DecidableEq

/-- The selector registry: prefix string to handler.  A `none` handler
models a registry entry explicitly set to null (the key is still present
and still enumerated by the prefix scan). -/
abbrev SelReg := List (String × Option Selector)

/-- The registry after the module's own registrations:
extend.selector('!', negationSelector); extend.selector('#', overrideSelector). -/
def defaultSelectors : SelReg :=
  [("!", some .negation), ("#", some .override)]

/-- addSelector: `if (selector !== undefined) selectors[prefix] = selector`.
The outer Option is the undefined/provided distinction of the JavaScript
parameter; the inner Option is null versus a function. -/
def addSelector (reg : SelReg) (pfx : String) (sel : Option (Option Selector)) : SelReg :=
  match sel with
  | none => reg
  | some v =>
      if reg.any (fun p => p.1 = pfx) then reg.map (fun p => if p.1 = pfx then (pfx, v) else p)
      else reg ++ [(pfx, v)]

/-- executeSelector: scan the registry in insertion order for a prefix the
source key starts with; on a match, strip the prefix, resolve the target
key (`targetKey ? targetKey : sourceKey`) and invoke the stored handler.
Invoking an entry that holds null is a runtime TypeError.  Returns whether
some selector matched, with the updated selection and override sets. -/
def executeSelector (reg : SelReg) (cfg : Config) (source : ObjMap) (sourceKey : String)
    (targetKeyJs : JsValue) (sourceKeys : KeyMap) (overrideKeys : List String) :
    Except JsErr (Bool × KeyMap × List String) :=
  match reg with
  | [] => .ok (false, sourceKeys, overrideKeys)
  | (pfx, sel) :: rest =>
    if strStartsWith pfx sourceKey then
      let sKey := strDrop sourceKey pfx.length
      let tkVal := if truthy targetKeyJs then targetKeyJs else .strV sKey
      match sel with
      | none => .error (.typeError "selector is not a function")
      | some .negation =>
          match negationSelector cfg source sKey sourceKeys with
          | .error e => .error e
          | .ok sk => .ok (true, sk, overrideKeys)
      | some .override =>
          let (sk, ov) := overrideSelector sKey tkVal sourceKeys overrideKeys
          .ok (true, sk, ov)
    else executeSelector rest cfg source sourceKey targetKeyJs sourceKeys overrideKeys

/-- A positional argument of a composition method.  Object-valued arguments
are written with the dedicated constructors (objA for plain objects, regexA,
arr, fnA); `other` carries the remaining primitive values. -/
inductive Arg where
  | str (s : String)
  | objA (m : List (String × JsValue))
  | regexA (r : Regex)
  | arr (es : List Arg)
  | fnA (f : Filter)
  | other (v : JsValue)
deriving Repr

mutual

/-- Weight of one argument: one unit plus the weight of nested array
elements.  Used as fuel for the parser's argument queue. -/
def Arg.weight : Arg → Nat
  | .arr es => 1 + argsWeight es
  | _ => 1

/-- Total weight of an argument list. -/
def argsWeight : List Arg → Nat
  | [] => 0
  | a :: as => a.weight + argsWeight as

end

/-- Numeric identity of a filter function when it is used as a value. -/
def filterFnId : Filter → Nat
  | .user id _ => id
  | .excludeName _ => 1000
  | .delegate => 1001

mutual

/-- The JavaScript value denoted by an argument (used when an argument is
stored as a property value, e.g. the shorthand property-value call). -/
def argToJsValue : Arg → JsValue
  | .str s => .strV s
  | .objA m => .objV m
  | .regexA _ => .objV []
  | .arr es => .objV (argsToEntries 0 es)
  | .fnA f => .fnV (filterFnId f)
  | .other v => v

/-- Array elements as own enumerable index properties ("0", "1", ...). -/
def argsToEntries : Nat → List Arg → List (String × JsValue)
  | _, [] => []
  | i, a :: as => (toString i, argToJsValue a) :: argsToEntries (i + 1) as

end

/-- `typeof value === 'object' && value !== null` (isObject in the source):
true for plain objects, regular expressions and arrays. -/
def isObjectArg : Arg → Bool
  | .objA _ => true
  | .regexA _ => true
  | .arr _ => true
  | _ => false

/-- The own enumerable properties of an object-typed argument used as the
source: a plain object is itself; a RegExp has none; an array has its
elements under index keys. -/
def sourceOfArg : Arg → ObjMap
  | .objA m => m
  | .regexA _ => []
  | .arr es => argsToEntries 0 es
  | _ => []

/-- The rename-mapping branch of parseMethodArgs: for each own key of the
mapping, try the selectors (the key checked against the registered
prefixes); otherwise record a literal rename.  Afterwards the parser checks
`isString(sourceKeys[sourceKey])` on the original, unstripped key and
raises IllegalArgument when it is not a string. -/
def processMapping (reg : SelReg) (cfg : Config) (source : ObjMap) :
    List (String × JsValue) → KeyMap → List String → Except JsErr (KeyMap × List String)
  | [], sk, ov => .ok (sk, ov)
  | (k, v) :: rest, sk, ov =>
    match executeSelector reg cfg source k v sk ov with
    | .error e => .error e
    | .ok (matched, sk1, ov1) =>
      let sk2 := if matched then sk1 else setKey sk1 k v
      if isString (lookupJs sk2 k) then processMapping reg cfg source rest sk2 ov1
      else .error (.illegalArgument v "Target property name is not a string.")

/-- The argument loop of parseMethodArgs: shift arguments off the queue,
dispatching on their runtime type; an array argument is decomposed by
pushing its elements onto the END of the queue (`methodArgs.push`); an
argument of no recognised type is silently ignored.  The loop is written
with explicit fuel: every iteration shifts one element and strictly
decreases the total queue weight, so `argsWeight` of the initial queue is
always sufficient fuel and the exhaustion branch is unreachable from
parseMethodArgs. -/
def parseLoop (reg : SelReg) (cfg : Config) (source : ObjMap) :
    Nat → List Arg → KeyMap → List String → List Filter →
    Except JsErr (KeyMap × List String × List Filter)
  | _, [], sk, ov, fs => .ok (sk, ov, fs)
  | 0, _ :: _, _, _, _ => .error (.typeError "argument queue did not terminate")
  | fuel + 1, a :: rest, sk, ov, fs =>
    match a with
    | .str s =>
      match executeSelector reg cfg source s .vnull sk ov with
      | .error e => .error e
      | .ok (true, sk1, ov1) => parseLoop reg cfg source fuel rest sk1 ov1 fs
      | .ok (false, sk1, ov1) => parseLoop reg cfg source fuel rest (setKey sk1 s (.strV s)) ov1 fs
    | .regexA r => parseLoop reg cfg source fuel rest (extendSourceKeys sk source (some r)) ov fs
    | .arr es => parseLoop reg cfg source fuel (rest ++ es) sk ov fs
    | .fnA f => parseLoop reg cfg source fuel rest sk ov (fs ++ [f])
    | .objA m =>
      match processMapping reg cfg source m sk ov with
      | .error e => .error e
      | .ok (sk1, ov1) => parseLoop reg cfg source fuel rest sk1 ov1 fs
    | .other _ => parseLoop reg cfg source fuel rest sk ov fs

/-- The result of parseMethodArgs. -/
structure ParseResult where
  source : ObjMap
  filters : List Filter
  sourceKeys : KeyMap
  overrideKeys : List String
deriving Repr, DecidableEq

/-- The tail of parseMethodArgs after the source object is fixed: run the
argument loop, then default to all source properties when nothing was
selected. -/
def parseTail (reg : SelReg) (cfg : Config) (source : ObjMap) (rest : List Arg) :
    Except JsErr ParseResult :=
  match parseLoop reg cfg source (argsWeight rest) rest [] [] [] with
  | .error e => .error e
  | .ok (sk, ov, fs) =>
    let sk1 := if isEmptyMap sk then extendSourceKeys sk source none else sk
    .ok ⟨source, fs, sk1, ov⟩

/-- parseMethodArgs: a string first argument is the single-property
shorthand and requires exactly one further argument (the value); an
object-typed first argument (by the `typeof` test, so including regular
expressions and arrays) is the source; anything else is an
IllegalArgument. -/
def parseMethodArgs (reg : SelReg) (cfg : Config) : List Arg → Except JsErr ParseResult
  | [] => .error (.illegalArgument .undefV "No source object found.")
  | firstArg :: rest =>
    match firstArg with
    | .str s =>
      if rest.length ≠ 1 then .error (.illegalArgument (.strV s) "Requires a single property value")
      else parseTail reg cfg [(s, argToJsValue (rest.headD (.other .undefV)))] []
    | a =>
      if isObjectArg a then parseTail reg cfg (sourceOfArg a) rest
      else .error (.illegalArgument (argToJsValue a) "No source object found.")

/-- A heap of objects addressed by reference; the executor reads the source
and writes the target through references, so aliasing behaves as in
JavaScript. -/
abbrev Heap := Nat → ObjMap

/-- Assignment through a reference: update the named object, leave every
other object untouched. -/
def writeRef (h : Heap) (r : Nat) (k : String) (v : JsValue) : Heap :=
  fun r2 => if r2 = r then setKey (h r) k v else h r2

/-- JavaScript ToString coercion for a value used as a property key.  Only
the string case is reachable after a successful parse. -/
def jsPropKey : JsValue → String
  | .strV s => s
  | .numV n => toString n
  | .boolV b => toString b
  | .undefV => "undefined"
  | .vnull => "null"
  | .objV _ => "[object Object]"
  | .fnV _ => "function"
  | .boundFnV _ => "function"

/-- One iteration of the modifyTarget loop: the PropertyNotFound check
(which falls through when the config flag is off), the filter pipeline, and
the assignment-then-override-check.  Returns the updated heap and the error
raised, if any; note that the assignment has already happened when
PropertyOverride is raised. -/
def processKey (cfg : Config) (tref sref : Nat) (h : Heap) (sourceKey : String)
    (tkVal : JsValue) (filters : List Filter) (overrideKeys : List String) :
    Heap × Option JsErr :=
  let source := h sref
  match (if hasKey source sourceKey then none else propertyNotFoundErr cfg sourceKey) with
  | some e => (h, some e)
  | none =>
    let ctx0 : FilterCtx := ⟨h tref, source, sourceKey, some tkVal, lookupJs source sourceKey⟩
    let ctx1 := (runFilters filters ctx0).1
    match ctx1.targetKey with
    | none => (h, none)
    | some tkJs =>
      let key := jsPropKey tkJs
      let overwritten := hasKey (h tref) key
      let h1 := writeRef h tref key ctx1.sourceValue
      if overwritten && ! overrideKeys.contains sourceKey then
        match propertyOverrideErr cfg key with
        | some e => (h1, some e)
        | none => (h1, none)
      else (h1, none)

/-- modifyTarget: process each selected property in order; a raised error
aborts the loop (the heap updates made so far are kept). -/
def modifyTarget (cfg : Config) (tref sref : Nat) :
    Heap → KeyMap → List Filter → List String → Heap × Option JsErr
  | h, [], _, _ => (h, none)
  | h, (k, tv) :: rest, filters, ov =>
    match processKey cfg tref sref h k tv filters ov with
    | (h1, some e) => (h1, some e)
    | (h1, none) => modifyTarget cfg tref sref h1 rest filters ov

/-- The built-in methods the statements below need. -/
inductive MethodKind where
  | withM
  | withDelegateM
deriving Repr, DecidableEq

/-- The filter pipeline after the method handler adjusted it: mixinMethod
passes the parsed filters through; delegateMethod unshifts the
exclude-underscore filter and pushes the delegate filter. -/
def methodFilters : MethodKind → List Filter → List Filter
  | .withM, fs => fs
  | .withDelegateM, fs => Filter.excludeName (Regex.startsWithR "_") :: fs ++ [Filter.delegate]

/-- A full method call `extend(target).<method>(source, ...extraArgs)` for a
heap-resident source object: wrapMethod parses the arguments, the method
handler adjusts the filters, and modifyTarget applies the result.  In
JavaScript the parsed source is the same live object as `h sref`; parsing
performs no heap write, so handing the parser the snapshot is faithful. -/
def runMethodCall (mk : MethodKind) (reg : SelReg) (cfg : Config) (tref sref : Nat)
    (h : Heap) (extraArgs : List Arg) : Heap × Option JsErr :=
  match parseMethodArgs reg cfg (Arg.objA (h sref) :: extraArgs) with
  | .error e => (h, some e)
  | .ok pr => modifyTarget cfg tref sref h pr.sourceKeys (methodFilters mk pr.filters) pr.overrideKeys

/-- The entry point: `extend(target, ...)` invokes the wrapped alternate
composition function with all original arguments when more than one
positional argument is given and one is registered.  The first component
records that invocation (wrapped-function identity and the arguments it
receives); the second is the target the returned method table closes over. -/
def extend (otherExtend : Option Nat) (args : List Arg) :
    Option (Nat × List Arg) × Option Arg :=
  (if 1 < args.length then otherExtend.map (fun f => (f, args)) else none, args.head?)

/-- Recogniser for a raised PropertyOverride error. -/
def isPropertyOverrideErr : Option JsErr → Bool
  | some (.propertyOverride _) => true
  | _ => false

/-!  Association-list lemmas. -/

theorem lookupVal_nil (k : String) : lookupVal [] k = none := rfl

theorem hasKey_nil (k : String) : hasKey [] k = false := rfl

theorem hasKey_cons (p : String × JsValue) (m : ObjMap) (k : String) :
    hasKey (p :: m) k = (p.1 = k || hasKey m k) := by
  simp [hasKey, List.any_cons]

theorem lookupVal_cons (p : String × JsValue) (m : ObjMap) (k : String) :
    lookupVal (p :: m) k = if p.1 = k then some p.2 else lookupVal m k := by
  by_cases hp : p.1 = k <;> simp [lookupVal, List.find?, hp]

theorem lookupVal_eq_none_of_hasKey_false {m : ObjMap} {k : String}
    (h : hasKey m k = false) : lookupVal m k = none := by
  induction m with
  | nil => rfl
  | cons p rest ih =>
    rw [hasKey_cons] at h
    simp only [Bool.or_eq_false_iff, decide_eq_false_iff_not] at h
    rw [lookupVal_cons, if_neg h.1]
    exact ih h.2

theorem lookupJs_eq_undef_of_hasKey_false {m : ObjMap} {k : String}
    (h : hasKey m k = false) : lookupJs m k = .undefV := by
  simp [lookupJs, lookupVal_eq_none_of_hasKey_false h]

theorem hasKey_eq_isSome_lookupVal (m : ObjMap) (k : String) :
    hasKey m k = (lookupVal m k).isSome := by
  induction m with
  | nil => rfl
  | cons p rest ih =>
    rw [hasKey_cons, lookupVal_cons]
    by_cases hp : p.1 = k
    · simp [hp]
    · simp [hp, ih]

theorem lookupVal_setKey_self (m : ObjMap) (k : String) (v : JsValue) :
    lookupVal (setKey m k v) k = some v := by
  induction m with
  | nil => simp [setKey, lookupVal_cons]
  | cons p rest ih =>
    by_cases hp : p.1 = k
    · simp [setKey, hp, lookupVal_cons]
    · rw [setKey, if_neg hp, lookupVal_cons, if_neg hp]
      exact ih

theorem lookupVal_setKey_ne (m : ObjMap) (k k2 : String) (v : JsValue)
    (h : k2 ≠ k) : lookupVal (setKey m k v) k2 = lookupVal m k2 := by
  induction m with
  | nil =>
    have hk : ¬ k = k2 := fun e => h e.symm
    simp [setKey, lookupVal_cons, hk]
  | cons p rest ih =>
    by_cases hp : p.1 = k
    · have hk : ¬ k = k2 := fun e => h e.symm
      rw [setKey, if_pos hp, lookupVal_cons, lookupVal_cons]
      simp only [hk, if_false, hp]
    · rw [setKey, if_neg hp, lookupVal_cons, lookupVal_cons]
      by_cases hq : p.1 = k2
      · simp [hq]
      · simp [hq, ih]

theorem hasKey_setKey_self (m : ObjMap) (k : String) (v : JsValue) :
    hasKey (setKey m k v) k = true := by
  rw [hasKey_eq_isSome_lookupVal, lookupVal_setKey_self]
  rfl

theorem hasKey_setKey_ne (m : ObjMap) (k k2 : String) (v : JsValue)
    (h : k2 ≠ k) : hasKey (setKey m k v) k2 = hasKey m k2 := by
  rw [hasKey_eq_isSome_lookupVal, hasKey_eq_isSome_lookupVal,
    lookupVal_setKey_ne m k k2 v h]

theorem setKey_eq_append_of_hasKey_false {m : ObjMap} {k : String} (v : JsValue)
    (h : hasKey m k = false) : setKey m k v = m ++ [(k, v)] := by
  induction m with
  | nil => rfl
  | cons p rest ih =>
    rw [hasKey_cons] at h
    simp only [Bool.or_eq_false_iff, decide_eq_false_iff_not] at h
    simp [setKey, h.1, ih h.2]

theorem hasKey_eq_decide_mem_keys (m : ObjMap) (k : String) :
    hasKey m k = decide (k ∈ m.map Prod.fst) := by
  induction m with
  | nil => rfl
  | cons p rest ih =>
    rw [hasKey_cons, ih]
    by_cases hp : p.1 = k
    · simp [hp]
    · have hk : ¬ k = p.1 := fun e => hp e.symm
      simp [hp, hk]

theorem hasKey_append (a b : ObjMap) (k : String) :
    hasKey (a ++ b) k = (hasKey a k || hasKey b k) := by
  simp [hasKey, List.any_append]

/-- The identity selection of all properties of an object. -/
def identEntries (m : ObjMap) : KeyMap :=
  m.map (fun p => (p.1, .strV p.1))

theorem lookupVal_extendSourceKeys_none (src : ObjMap) (acc : KeyMap) (k : String) :
    lookupVal (extendSourceKeys acc src none) k =
      if hasKey src k = true then some (.strV k) else lookupVal acc k := by
  induction src generalizing acc with
  | nil => simp [extendSourceKeys, hasKey_nil]
  | cons p rest ih =>
    rw [extendSourceKeys]
    simp only [regexPasses, if_true]
    rw [ih]
    by_cases hk : hasKey rest k = true
    · simp [hk, hasKey_cons]
    · simp only [hk, if_false, hasKey_cons]
      by_cases hp : p.1 = k
      · subst hp
        simp [lookupVal_setKey_self, hk]
      · rw [lookupVal_setKey_ne _ _ _ _ (fun e => hp e.symm)]
        simp [hp, hk]

theorem extendSourceKeys_eq_append_ident (src : ObjMap) (acc : KeyMap)
    (hnd : (src.map Prod.fst).Nodup)
    (hacc : ∀ p ∈ src, hasKey acc p.1 = false) :
    extendSourceKeys acc src none = acc ++ identEntries src := by
  induction src generalizing acc with
  | nil => simp [extendSourceKeys, identEntries]
  | cons p rest ih =>
    rw [extendSourceKeys]
    simp only [regexPasses, if_true]
    rw [List.map_cons, List.nodup_cons] at hnd
    rw [setKey_eq_append_of_hasKey_false _ (hacc p (List.mem_cons_self p rest))]
    have haccNew : ∀ q ∈ rest, hasKey (acc ++ [(p.1, JsValue.strV p.1)]) q.1 = false := by
      intro q hq
      rw [hasKey_append]
      have h1 : hasKey acc q.1 = false := hacc q (List.mem_cons_of_mem p hq)
      have h2 : hasKey [(p.1, JsValue.strV p.1)] q.1 = false := by
        have hqp : q.1 ≠ p.1 := by
          intro e
          exact hnd.1 (e ▸ List.mem_map_of_mem Prod.fst hq)
        have hpq : ¬ p.1 = q.1 := fun e => hqp e.symm
        simp [hasKey, hpq]
      rw [h1, h2]
      rfl
    rw [ih (acc ++ [(p.1, JsValue.strV p.1)]) hnd.2 haccNew]
    simp [identEntries]

/-!  Filter pipeline lemmas. -/

theorem runFilters_nil (ctx : FilterCtx) : runFilters [] ctx = (ctx, true) := rfl

theorem runFilters_append_of_pass {fs1 : List Filter} {ctx ctx1 : FilterCtx}
    (h : runFilters fs1 ctx = (ctx1, true)) (rest : List Filter) :
    runFilters (fs1 ++ rest) ctx = runFilters rest ctx1 := by
  induction fs1 generalizing ctx with
  | nil =>
    have h1 : ctx = ctx1 := congrArg Prod.fst h
    rw [List.nil_append, h1]
  | cons f fs ih =>
    rw [List.cons_append]
    by_cases hb : (applyFilter f ctx).2 = true
    · rw [runFilters, if_pos hb] at h
      rw [runFilters, if_pos hb]
      exact ih h
    · rw [runFilters, if_neg hb] at h
      exact absurd (congrArg Prod.snd h) (by simp)

/-!  Heap lemmas. -/

theorem writeRef_other {h : Heap} {r r2 : Nat} (k : String) (v : JsValue)
    (hne : r2 ≠ r) : writeRef h r k v r2 = h r2 := by
  simp [writeRef, hne]

theorem writeRef_self (h : Heap) (r : Nat) (k : String) (v : JsValue) :
    writeRef h r k v r = setKey (h r) k v := by
  simp [writeRef]

theorem processKey_fst_sref (cfg : Config) (tref sref : Nat) (h : Heap)
    (k : String) (tv : JsValue) (fs : List Filter) (ov : List String)
    (hne : tref ≠ sref) :
    (processKey cfg tref sref h k tv fs ov).1 sref = h sref := by
  have hs : sref ≠ tref := fun e => hne e.symm
  unfold processKey
  dsimp only
  cases hnf : (if hasKey (h sref) k = true then none else propertyNotFoundErr cfg k) with
  | some e => rfl
  | none =>
    cases htk : (runFilters fs
        (⟨h tref, h sref, k, some tv, lookupJs (h sref) k⟩ : FilterCtx)).1.targetKey with
    | none => rfl
    | some tkJs =>
      repeat' split
      all_goals first
        | rfl
        | exact writeRef_other _ _ hs

theorem modifyTarget_fst_sref (cfg : Config) (tref sref : Nat)
    (hne : tref ≠ sref) :
    ∀ (ks : KeyMap) (fs : List Filter) (ov : List String) (h : Heap),
    (modifyTarget cfg tref sref h ks fs ov).1 sref = h sref := by
  intro ks
  induction ks with
  | nil => intro fs ov h; rfl
  | cons p rest ih =>
    intro fs ov h
    obtain ⟨k, tv⟩ := p
    rcases hpk : processKey cfg tref sref h k tv fs ov with ⟨h1, e⟩
    have hpres : h1 sref = h sref := by
      have := processKey_fst_sref cfg tref sref h k tv fs ov hne
      rw [hpk] at this
      exact this
    rw [modifyTarget, hpk]
    cases e with
    | some e => exact hpres
    | none =>
      rw [ih fs ov h1]
      exact hpres

/-!  Claim theorems. -/

/-- Claim C1: the parser checks every rename-mapping key against the
selector prefixes first, and `{'#bark': 'sound'}` does invoke the override
selector with target key `sound` (second conjunct); but the subsequent
string check reads `sourceKeys['#bark']` - the unstripped key, which the
selector never set - so the call then raises IllegalArgument (target
property name is not a string) even though the mapping value IS the string
`sound` (first conjunct).  The check fires correctly for a genuinely
non-string mapping value (third conjunct).  This contradicts the
documented behaviour of prefix-selector rename mappings. -/
theorem overridePrefixedMapping_spurious_error :
    parseMethodArgs defaultSelectors defaultConfig
      [.objA [("bark", .strV "woof")], .objA [("#bark", .strV "sound")]]
      = .error (.illegalArgument (.strV "sound") "Target property name is not a string.") ∧
    executeSelector defaultSelectors defaultConfig [("bark", .strV "woof")] "#bark"
      (.strV "sound") [] []
      = .ok (true, [("bark", .strV "sound")], ["bark"]) ∧
    parseMethodArgs defaultSelectors defaultConfig
      [.objA [("bark", .strV "woof")], .objA [("bark", .numV 3)]]
      = .error (.illegalArgument (.numV 3) "Target property name is not a string.") := by
  refine ⟨by decide, by decide, by decide⟩

/-- Claim C2 counterexample: with throwPropertyNotFoundError disabled and a
selected key absent from the source, the executor does NOT skip the
property: no error is raised, but the key IS assigned to the target with
value undefined. -/
theorem notFoundDisabled_skips_cex :
    (processKey ⟨"extendThis.js", false, true⟩ 0 1 (fun _ => []) "a" (.strV "a") [] []).2
      = none ∧
    lookupVal ((processKey ⟨"extendThis.js", false, true⟩ 0 1 (fun _ => [])
      "a" (.strV "a") [] []).1 0) "a" = some .undefV ∧
    ¬ (hasKey ((processKey ⟨"extendThis.js", false, true⟩ 0 1 (fun _ => [])
      "a" (.strV "a") [] []).1 0) "a" = false) := by
  refine ⟨by decide, by decide, by decide⟩

/-- Claim C2 amended: when throwPropertyNotFoundError is false and the
selected source key is missing, no error is raised but the property is
still applied - the target receives the (possibly filter-resolved) key
with value `undefined`; the property is not skipped. -/
theorem notFoundDisabled_assigns_undefined (cfg : Config) (tref sref : Nat)
    (h : Heap) (k : String) (tv : JsValue) (ov : List String)
    (hflag : cfg.throwPropertyNotFoundError = false)
    (hmiss : hasKey (h sref) k = false)
    (hnew : hasKey (h tref) (jsPropKey tv) = false) :
    processKey cfg tref sref h k tv [] ov
      = (writeRef h tref (jsPropKey tv) .undefV, none) := by
  unfold processKey
  dsimp only
  rw [hmiss]
  simp only [Bool.false_eq_true, if_false, propertyNotFoundErr, hflag, runFilters,
    lookupJs_eq_undef_of_hasKey_false hmiss, hnew, Bool.false_and, Bool.false_eq_true,
    if_false]

/-- Witness for the amended C2 theorem at a concrete input. -/
theorem notFoundDisabled_assigns_undefined_witness :
    processKey ⟨"extendThis.js", false, true⟩ 0 1 (fun _ => []) "a" (.strV "a") [] []
      = (writeRef (fun _ => []) 0 "a" .undefV, none) :=
  notFoundDisabled_assigns_undefined ⟨"extendThis.js", false, true⟩ 0 1 (fun _ => [])
    "a" (.strV "a") [] rfl rfl rfl

/-- Claim C3 counterexample: for the call with(source, [f1], f2) the parser
produces the filter pipeline [f2, f1], not [f1, f2]: the elements of an
array argument are processed AFTER the arguments that followed the array,
refuting front-of-queue reinsertion. -/
theorem arrayArg_processed_after_cex :
    (parseMethodArgs defaultSelectors defaultConfig
      [.objA [("a", .numV 1)], .arr [.fnA (.user 1 true)], .fnA (.user 2 true)]).toOption.map
        ParseResult.filters = some [.user 2 true, .user 1 true] ∧
    ¬ ((parseMethodArgs defaultSelectors defaultConfig
      [.objA [("a", .numV 1)], .arr [.fnA (.user 1 true)], .fnA (.user 2 true)]).toOption.map
        ParseResult.filters = some [.user 1 true, .user 2 true]) := by
  refine ⟨by decide, by decide⟩

/-- Claim C3 amended: an array argument is flattened by appending its
elements, preserving their relative order, to the BACK of the
remaining-argument queue (`methodArgs.push`), so they are processed after
any arguments that followed the array in the original call. -/
theorem arrayArg_appended_to_back (reg : SelReg) (cfg : Config) (source : ObjMap)
    (fuel : Nat) (es rest : List Arg) (sk : KeyMap) (ov : List String) (fs : List Filter) :
    parseLoop reg cfg source (fuel + 1) (.arr es :: rest) sk ov fs
      = parseLoop reg cfg source fuel (rest ++ es) sk ov fs := rfl

/-- Claim C4: registering null for the existing prefix '#' does NOT remove
the prefix from the registry: the entry stays, holding null (first
conjunct); a subsequent string argument starting with '#' still matches the
prefix and the registry invokes the null entry as a function, a runtime
TypeError - the string is not treated as a literal property name (second
and third conjuncts).  This contradicts the documented null-unregistration
recipe. -/
theorem nullSelector_registration_crashes :
    addSelector defaultSelectors "#" (some none) = [("!", some .negation), ("#", none)] ∧
    parseMethodArgs (addSelector defaultSelectors "#" (some none)) defaultConfig
      [.objA [("#name", .numV 1)], .str "#name"]
      = .error (.typeError "selector is not a function") ∧
    executeSelector (addSelector defaultSelectors "#" (some none)) defaultConfig
      [("#name", .numV 1)] "#name" .vnull [] []
      = .error (.typeError "selector is not a function") := by
  refine ⟨by decide, by decide, by decide⟩

/-- Claim C5: when the resolved target key already exists on the target,
the source key is not in the override set and throwOverrideError is true,
the executor performs the assignment FIRST and only then raises
PropertyOverride: the returned heap already holds the new value even
though the error fires. -/
theorem override_assignment_precedes_error (cfg : Config) (tref sref : Nat)
    (h : Heap) (k : String) (tv : JsValue) (fs : List Filter) (ov : List String)
    (ctx1 : FilterCtx) (tkv : JsValue)
    (hsrc : hasKey (h sref) k = true)
    (hf : runFilters fs ⟨h tref, h sref, k, some tv, lookupJs (h sref) k⟩ = (ctx1, true))
    (ht : ctx1.targetKey = some tkv)
    (hover : hasKey (h tref) (jsPropKey tkv) = true)
    (hnov : ov.contains k = false)
    (hcfg : cfg.throwOverrideError = true) :
    processKey cfg tref sref h k tv fs ov
      = (writeRef h tref (jsPropKey tkv) ctx1.sourceValue,
         some (.propertyOverride (jsPropKey tkv))) := by
  unfold processKey
  dsimp only
  rw [hsrc]
  simp only [if_true, hf, ht, hover, hnov, Bool.not_false, Bool.and_true,
    propertyOverrideErr, hcfg, if_true]

/-- A sample heap used by several witnesses: target (ref 0) and source
(ref 1) both own the key n. -/
def sampleHeap : Heap := fun r => if r = 0 then [("n", .numV 7)] else [("n", .numV 9)]

/-- Witness for the C5 theorem at a concrete input. -/
theorem override_assignment_precedes_error_witness :
    processKey defaultConfig 0 1 sampleHeap "n" (.strV "n") [] []
      = (writeRef sampleHeap 0 "n" (.numV 9), some (.propertyOverride "n")) :=
  override_assignment_precedes_error defaultConfig 0 1 sampleHeap "n" (.strV "n") [] []
    ⟨sampleHeap 0, sampleHeap 1, "n", some (.strV "n"), .numV 9⟩ (.strV "n")
    rfl rfl rfl rfl rfl rfl

/-- Claim C8: when the entry point is called with more than one positional
argument and an alternate composition function has been registered via the
wrap mechanism, that function is invoked with all of the original
arguments. -/
theorem extend_calls_wrapped (f : Nat) (args : List Arg) (hlen : 1 < args.length) :
    (extend (some f) args).1 = some (f, args) := by
  simp [extend, hlen]

/-- Witness for the C8 theorem at a concrete input. -/
theorem extend_calls_wrapped_witness :
    (extend (some 7) [Arg.objA [], Arg.objA [("a", .numV 1)]]).1
      = some (7, [Arg.objA [], Arg.objA [("a", .numV 1)]]) :=
  extend_calls_wrapped 7 [Arg.objA [], Arg.objA [("a", .numV 1)]] (by decide)

/-- Claim C9: the filter pipeline short-circuits per property: if the
filters before f all pass and f returns false, the result of the whole
pipeline is already determined - the filters after f (fs2) do not appear in
the result (first conjunct) - and the executor makes no assignment and
raises no error for that property (second conjunct). -/
theorem filter_rejection_short_circuits (cfg : Config) (tref sref : Nat)
    (h : Heap) (k : String) (tv : JsValue) (fs1 fs2 : List Filter) (f : Filter)
    (ov : List String) (ctx1 : FilterCtx)
    (hsrc : hasKey (h sref) k = true)
    (h1 : runFilters fs1 ⟨h tref, h sref, k, some tv, lookupJs (h sref) k⟩ = (ctx1, true))
    (h2 : (applyFilter f ctx1).2 = false) :
    runFilters (fs1 ++ f :: fs2) ⟨h tref, h sref, k, some tv, lookupJs (h sref) k⟩
      = ({ (applyFilter f ctx1).1 with targetKey := none }, false) ∧
    processKey cfg tref sref h k tv (fs1 ++ f :: fs2) ov = (h, none) := by
  have hrun : runFilters (fs1 ++ f :: fs2) ⟨h tref, h sref, k, some tv, lookupJs (h sref) k⟩
      = ({ (applyFilter f ctx1).1 with targetKey := none }, false) := by
    rw [runFilters_append_of_pass h1]
    rw [runFilters]
    rw [if_neg (by rw [h2]; exact Bool.false_ne_true)]
  refine ⟨hrun, ?_⟩
  unfold processKey
  dsimp only
  rw [hsrc]
  simp only [if_true, hrun]

/-- Witness for the C9 theorem at a concrete input. -/
theorem filter_rejection_short_circuits_witness :
    runFilters [Filter.user 1 true, Filter.user 2 false, Filter.user 3 true]
      ⟨sampleHeap 0, sampleHeap 1, "n", some (.strV "n"), lookupJs (sampleHeap 1) "n"⟩
      = (⟨sampleHeap 0, sampleHeap 1, "n", none, .numV 9⟩, false) ∧
    processKey defaultConfig 0 1 sampleHeap "n" (.strV "n")
      [Filter.user 1 true, Filter.user 2 false, Filter.user 3 true] [] = (sampleHeap, none) :=
  filter_rejection_short_circuits defaultConfig 0 1 sampleHeap "n" (.strV "n")
    [Filter.user 1 true] [Filter.user 3 true] (Filter.user 2 false) []
    ⟨sampleHeap 0, sampleHeap 1, "n", some (.strV "n"), .numV 9⟩
    rfl rfl rfl

/-- Claim C10: a with or withDelegate call on distinct target and source
objects never mutates the source: the source object is identical in the
heap before and after the call (this also holds when the call raises). -/
theorem methods_do_not_mutate_source (mk : MethodKind) (reg : SelReg) (cfg : Config)
    (tref sref : Nat) (h : Heap) (extraArgs : List Arg) (hne : tref ≠ sref) :
    (runMethodCall mk reg cfg tref sref h extraArgs).1 sref = h sref := by
  unfold runMethodCall
  cases hp : parseMethodArgs reg cfg (Arg.objA (h sref) :: extraArgs) with
  | error e => rfl
  | ok pr =>
    exact modifyTarget_fst_sref cfg tref sref hne pr.sourceKeys
      (methodFilters mk pr.filters) pr.overrideKeys h

/-- Witness for the C10 theorem at a concrete input. -/
theorem methods_do_not_mutate_source_witness :
    (runMethodCall .withDelegateM defaultSelectors defaultConfig 0 1
      (fun r => if r = 1 then [("a", .numV 1), ("f", .fnV 5)] else []) []).1 1
      = [("a", .numV 1), ("f", .fnV 5)] := by
  have := methods_do_not_mutate_source .withDelegateM defaultSelectors defaultConfig 0 1
    (fun r => if r = 1 then [("a", .numV 1), ("f", .fnV 5)] else []) [] (by decide)
  simpa using this

/-!  Lemmas for the mixin-method theorems. -/

theorem isEmptyMap_eq_false_of_ne_nil {m : ObjMap} (h : m ≠ []) :
    isEmptyMap m = false := by
  cases m with
  | nil => exact absurd rfl h
  | cons p rest => rfl

/-- Parsing a lone source object: no arguments remain, so the selection
defaults to all source properties. -/
theorem parse_source_only (reg : SelReg) (cfg : Config) (S : ObjMap) :
    parseMethodArgs reg cfg [.objA S]
      = .ok ⟨S, [], extendSourceKeys [] S none, []⟩ := rfl

/-- One executor step that copies a fresh key: the source has it, the
target does not. -/
theorem processKey_copy (cfg : Config) (tref sref : Nat) (h : Heap) (k : String)
    (hsrc : hasKey (h sref) k = true) (hnew : hasKey (h tref) k = false) :
    processKey cfg tref sref h k (.strV k) [] []
      = (writeRef h tref k (lookupJs (h sref) k), none) := by
  unfold processKey
  dsimp only
  rw [hsrc]
  simp only [if_true, runFilters, jsPropKey, hnew, Bool.false_and, Bool.false_eq_true,
    if_false]

/-- One executor step that collides: both source and target have the key,
the override set is empty and the override error is enabled; the
assignment happens and the error is raised. -/
theorem processKey_collide (cfg : Config) (tref sref : Nat) (h : Heap) (k : String)
    (hsrc : hasKey (h sref) k = true) (hover : hasKey (h tref) k = true)
    (hcfg : cfg.throwOverrideError = true) :
    processKey cfg tref sref h k (.strV k) [] []
      = (writeRef h tref k (lookupJs (h sref) k), some (.propertyOverride k)) := by
  unfold processKey
  dsimp only
  rw [hsrc]
  simp only [if_true, runFilters, jsPropKey, hover]
  simp [propertyOverrideErr, hcfg]

/-- Applying an identity selection of fresh keys with no filters and no
overrides: no error, and the target afterwards reads as source values on
the selected keys and as before elsewhere. -/
theorem modifyTarget_ident_fresh (cfg : Config) (tref sref : Nat)
    (hne : tref ≠ sref) :
    ∀ (l : List String) (h : Heap),
    l.Nodup →
    (∀ k ∈ l, hasKey (h sref) k = true) →
    (∀ k ∈ l, hasKey (h tref) k = false) →
    (modifyTarget cfg tref sref h (l.map (fun k => (k, .strV k))) [] []).2 = none ∧
    (∀ k2, lookupVal ((modifyTarget cfg tref sref h
        (l.map (fun k => (k, .strV k))) [] []).1 tref) k2
      = if k2 ∈ l then some (lookupJs (h sref) k2) else lookupVal (h tref) k2) := by
  intro l
  induction l with
  | nil =>
    intro h _ _ _
    refine ⟨rfl, ?_⟩
    intro k2
    simp [modifyTarget]
  | cons k l2 ih =>
    intro h hnd hsrc hnew
    rw [List.nodup_cons] at hnd
    have hk1 : hasKey (h sref) k = true := hsrc k (List.mem_cons_self k l2)
    have hk2 : hasKey (h tref) k = false := hnew k (List.mem_cons_self k l2)
    have hstep := processKey_copy cfg tref sref h k hk1 hk2
    have hw : writeRef h tref k (lookupJs (h sref) k) sref = h sref :=
      writeRef_other _ _ (fun e => hne e.symm)
    have hwt : writeRef h tref k (lookupJs (h sref) k) tref = setKey (h tref) k (lookupJs (h sref) k) :=
      writeRef_self h tref k (lookupJs (h sref) k)
    have ihuse := ih (writeRef h tref k (lookupJs (h sref) k)) hnd.2
      (by
        intro q hq
        rw [hw]
        exact hsrc q (List.mem_cons_of_mem k hq))
      (by
        intro q hq
        rw [hwt]
        have hqk : q ≠ k := by
          intro e
          rw [e] at hq
          exact hnd.1 hq
        rw [hasKey_setKey_ne _ _ _ _ hqk]
        exact hnew q (List.mem_cons_of_mem k hq))
    rw [List.map_cons, modifyTarget, hstep]
    refine ⟨ihuse.1, ?_⟩
    intro k2
    rw [ihuse.2 k2, hw]
    by_cases hmem : k2 ∈ l2
    · simp [hmem]
    · rw [if_neg hmem, hwt]
      by_cases hk2k : k2 = k
      · subst hk2k
        rw [lookupVal_setKey_self]
        simp
      · rw [lookupVal_setKey_ne _ _ _ _ hk2k]
        have : ¬ k2 ∈ k :: l2 := by
          intro hc
          rcases List.mem_cons.mp hc with h1 | h1
          · exact hk2k h1
          · exact hmem h1
        rw [if_neg this]

/-- The heap for the C6 counterexample: nonempty target (ref 0), empty
source (ref 1); the key sets are disjoint. -/
def heapC6 : Heap := fun r => if r = 0 then [("x", .numV 1)] else []

/-- Claim C6 counterexample: with target x1 and the empty source (disjoint
keys), with(S) leaves the target unchanged - it does NOT contain exactly
S's (zero) keys - and a second with(S) raises nothing, refuting the
claimed universal property. -/
theorem with_twice_claim_cex :
    ¬ (((runMethodCall .withM defaultSelectors defaultConfig 0 1 heapC6 []).1 0
          = ([] : ObjMap)) ∧
       isPropertyOverrideErr (runMethodCall .withM defaultSelectors defaultConfig 0 1
          (runMethodCall .withM defaultSelectors defaultConfig 0 1 heapC6 []).1 []).2
         = true) ∧
    (runMethodCall .withM defaultSelectors defaultConfig 0 1 heapC6 []).1 0
      = [("x", .numV 1)] ∧
    (runMethodCall .withM defaultSelectors defaultConfig 0 1
       (runMethodCall .withM defaultSelectors defaultConfig 0 1 heapC6 []).1 []).2
      = none := by
  refine ⟨by decide, by decide, by decide⟩

/-- Claim C6 amended: for a target and a NONEMPTY source with disjoint key
sets (and default configuration), with(S) succeeds; the source is
untouched; afterwards the target reads as the source on the source's keys
and as before on every other key (it keeps its own prior keys, rather than
holding exactly S's keys); and a second with(S) on the result raises
PropertyOverride (at the source's first key). -/
theorem with_disjoint_copies_then_raises (tref sref : Nat) (h : Heap)
    (k0 : String) (v0 : JsValue) (S2 : ObjMap)
    (hne : tref ≠ sref)
    (hS : h sref = (k0, v0) :: S2)
    (hnd : ((h sref).map Prod.fst).Nodup)
    (hdisj : ∀ k, hasKey (h sref) k = true → hasKey (h tref) k = false) :
    (runMethodCall .withM defaultSelectors defaultConfig tref sref h []).2 = none ∧
    (runMethodCall .withM defaultSelectors defaultConfig tref sref h []).1 sref = h sref ∧
    (∀ k, lookupVal ((runMethodCall .withM defaultSelectors defaultConfig tref sref h []).1
        tref) k
      = if hasKey (h sref) k = true then some (lookupJs (h sref) k)
        else lookupVal (h tref) k) ∧
    (runMethodCall .withM defaultSelectors defaultConfig tref sref
       (runMethodCall .withM defaultSelectors defaultConfig tref sref h []).1 []).2
      = some (.propertyOverride k0) := by
  have hcall : ∀ hh : Heap, hh sref = h sref →
      runMethodCall .withM defaultSelectors defaultConfig tref sref hh []
        = modifyTarget defaultConfig tref sref hh (extendSourceKeys [] (h sref) none) [] [] := by
    intro hh heq
    unfold runMethodCall
    rw [heq, parse_source_only]
    rfl
  have h1eq := hcall h rfl
  have hesk : extendSourceKeys [] (h sref) none
      = ((h sref).map Prod.fst).map (fun k => (k, JsValue.strV k)) := by
    rw [extendSourceKeys_eq_append_ident (h sref) [] hnd (fun p _ => rfl)]
    rw [List.nil_append, identEntries, List.map_map]
    rfl
  have hmem : ∀ k, k ∈ (h sref).map Prod.fst → hasKey (h sref) k = true := by
    intro k hk
    rw [hasKey_eq_decide_mem_keys]
    simpa using hk
  have hmt := modifyTarget_ident_fresh defaultConfig tref sref hne
    ((h sref).map Prod.fst) h hnd hmem
    (fun k hk => hdisj k (hmem k hk))
  have hA : (runMethodCall .withM defaultSelectors defaultConfig tref sref h []).2 = none := by
    rw [h1eq, hesk]
    exact hmt.1
  have hB : (runMethodCall .withM defaultSelectors defaultConfig tref sref h []).1 sref
      = h sref := by
    rw [h1eq]
    exact modifyTarget_fst_sref defaultConfig tref sref hne _ _ _ h
  have hC : ∀ k, lookupVal ((runMethodCall .withM defaultSelectors defaultConfig
        tref sref h []).1 tref) k
      = if hasKey (h sref) k = true then some (lookupJs (h sref) k)
        else lookupVal (h tref) k := by
    intro k
    rw [h1eq, hesk, hmt.2 k]
    by_cases hm : k ∈ (h sref).map Prod.fst
    · rw [if_pos hm, if_pos (hmem k hm)]
    · rw [if_neg hm, if_neg]
      rw [hasKey_eq_decide_mem_keys]
      simpa using hm
  have hk0src : hasKey (h sref) k0 = true := by
    rw [hS, hasKey_cons]
    simp
  have h2eq := hcall (runMethodCall .withM defaultSelectors defaultConfig tref sref h []).1 hB
  have hD : (runMethodCall .withM defaultSelectors defaultConfig tref sref
       (runMethodCall .withM defaultSelectors defaultConfig tref sref h []).1 []).2
      = some (.propertyOverride k0) := by
    rw [h2eq, hesk, hS]
    simp only [List.map_cons]
    have hsrc2 : hasKey ((runMethodCall .withM defaultSelectors defaultConfig
        tref sref h []).1 sref) k0 = true := by
      rw [hB]
      exact hk0src
    have hover2 : hasKey ((runMethodCall .withM defaultSelectors defaultConfig
        tref sref h []).1 tref) k0 = true := by
      rw [hasKey_eq_isSome_lookupVal, hC k0, if_pos hk0src]
      rfl
    have hpc := processKey_collide defaultConfig tref sref
      (runMethodCall .withM defaultSelectors defaultConfig tref sref h []).1 k0
      hsrc2 hover2 rfl
    rw [modifyTarget, hpc]
  exact ⟨hA, hB, hC, hD⟩

/-- The heap for the C6 witness: empty target (ref 0), two-key source
(ref 1). -/
def heapC6w : Heap := fun r => if r = 1 then [("a", .numV 1), ("b", .numV 2)] else []

/-- Witness for the amended C6 theorem at a concrete input. -/
theorem with_disjoint_copies_then_raises_witness :
    (runMethodCall .withM defaultSelectors defaultConfig 0 1 heapC6w []).2 = none ∧
    (runMethodCall .withM defaultSelectors defaultConfig 0 1
       (runMethodCall .withM defaultSelectors defaultConfig 0 1 heapC6w []).1 []).2
      = some (.propertyOverride "a") := by
  have h := with_disjoint_copies_then_raises 0 1 heapC6w "a" (.numV 1) [("b", .numV 2)]
    (by decide) rfl (by decide) (by intro k _; rfl)
  exact ⟨h.1, h.2.2.2⟩

/-!  Lemmas for the negation-selector theorems. -/

theorem negationSelector_empty_found (cfg : Config) (S : ObjMap) (k : String)
    (hk : hasKey S k = true) :
    negationSelector cfg S k [] = .ok (deleteKey (extendSourceKeys [] S none) k) := by
  have hkd : keyDefined (extendSourceKeys [] S none) k = true := by
    unfold keyDefined lookupJs
    rw [lookupVal_extendSourceKeys_none, if_pos hk]
    rfl
  unfold negationSelector
  simp only [isEmptyMap, List.isEmpty_nil, if_true, hkd]

theorem negationSelector_empty_missing (cfg : Config) (S : ObjMap) (k : String)
    (hk : hasKey S k = false) (hflag : cfg.throwPropertyNotFoundError = true) :
    negationSelector cfg S k [] = .error (.propertyNotFound k) := by
  have hkd : keyDefined (extendSourceKeys [] S none) k = false := by
    unfold keyDefined lookupJs
    rw [lookupVal_extendSourceKeys_none, if_neg]
    · rfl
    · rw [hk]
      exact Bool.false_ne_true
  unfold negationSelector
  simp only [isEmptyMap, List.isEmpty_nil, if_true, hkd, Bool.false_eq_true, if_false,
    propertyNotFoundErr, hflag]

theorem negationSelector_nonempty (cfg : Config) (S : ObjMap) (k : String) (sk : KeyMap)
    (hne : isEmptyMap sk = false) (hkd : keyDefined sk k = true) :
    negationSelector cfg S k sk = .ok (deleteKey sk k) := by
  unfold negationSelector
  simp only [hne, Bool.false_eq_true, if_false, hkd, if_true]

theorem executeSelector_negation (cfg : Config) (S : ObjMap) (s k : String)
    (tkv : JsValue) (sk : KeyMap) (ov : List String)
    (hpre : strStartsWith "!" s = true) (hdrop : strDrop s 1 = k) :
    executeSelector defaultSelectors cfg S s tkv sk ov
      = match negationSelector cfg S k sk with
        | .error e => .error e
        | .ok sk2 => .ok (true, sk2, ov) := by
  have hdrop2 : strDrop s (String.length "!") = k := hdrop
  simp only [defaultSelectors, executeSelector, hpre, if_true, hdrop2]

theorem parseLoop_cons_str (reg : SelReg) (cfg : Config) (source : ObjMap)
    (fuel : Nat) (s : String) (rest : List Arg) (sk : KeyMap) (ov : List String)
    (fs : List Filter) :
    parseLoop reg cfg source (fuel + 1) (.str s :: rest) sk ov fs
      = match executeSelector reg cfg source s .vnull sk ov with
        | .error e => .error e
        | .ok (true, sk1, ov1) => parseLoop reg cfg source fuel rest sk1 ov1 fs
        | .ok (false, sk1, ov1) =>
            parseLoop reg cfg source fuel rest (setKey sk1 s (.strV s)) ov1 fs := by
  rcases hes : executeSelector reg cfg source s JsValue.vnull sk ov with e | ⟨b, sk1, ov1⟩
  · simp only [parseLoop, hes]
  · cases b <;> simp only [parseLoop, hes]

/-- Parsing a source object followed by one string selector argument. -/
theorem parse_objA_str (reg : SelReg) (cfg : Config) (S : ObjMap) (s : String) :
    parseMethodArgs reg cfg [.objA S, .str s]
      = match executeSelector reg cfg S s .vnull [] [] with
        | .error e => .error e
        | .ok (true, sk1, ov1) =>
            .ok ⟨S, [], if isEmptyMap sk1 = true then extendSourceKeys sk1 S none else sk1,
              ov1⟩
        | .ok (false, sk1, ov1) =>
            .ok ⟨S, [],
              if isEmptyMap (setKey sk1 s (.strV s)) = true then
                extendSourceKeys (setKey sk1 s (.strV s)) S none
              else setKey sk1 s (.strV s), ov1⟩ := by
  have h1 : parseMethodArgs reg cfg [.objA S, .str s] = parseTail reg cfg S [.str s] := rfl
  rw [h1]
  unfold parseTail
  rw [show argsWeight [Arg.str s] = 0 + 1 from rfl]
  rw [parseLoop_cons_str]
  rcases hes : executeSelector reg cfg S s JsValue.vnull [] [] with e | ⟨b, sk1, ov1⟩
  · rfl
  · cases b
    · simp only [parseLoop]
    · simp only [parseLoop]

/-- Claim C7 counterexample: on a source whose ONLY key is k, parsing
with(source, negation of k) does not select "every other key" (the empty
selection): the negation empties the selection and the parser's default
select-all then reinstates ALL keys, k included. -/
theorem negation_single_key_cex :
    (parseMethodArgs defaultSelectors defaultConfig
       [.objA [("k", .numV 1)], .str "!k"]).toOption.map ParseResult.sourceKeys
      = some [("k", .strV "k")] ∧
    ¬ ((parseMethodArgs defaultSelectors defaultConfig
       [.objA [("k", .numV 1)], .str "!k"]).toOption.map ParseResult.sourceKeys
      = some (deleteKey (extendSourceKeys [] [("k", .numV 1)] none) "k")) := by
  refine ⟨by decide, by decide⟩

/-- Claim C7 amended: the negation selector is complement-eager - on an
empty selection it first selects all source properties and then removes
the negated key, so a lone negation selects every OTHER key PROVIDED at
least one other key remains (otherwise the parser default-selects all keys
again); on a nonempty selection it only removes the key; and negating a
key absent after population raises PropertyNotFound. -/
theorem negation_complement_behavior (S : ObjMap) (s k : String)
    (hpre : strStartsWith "!" s = true) (hdrop : strDrop s 1 = k) :
    (hasKey S k = true → deleteKey (extendSourceKeys [] S none) k ≠ [] →
      parseMethodArgs defaultSelectors defaultConfig [.objA S, .str s]
        = .ok ⟨S, [], deleteKey (extendSourceKeys [] S none) k, []⟩) ∧
    (hasKey S k = false →
      parseMethodArgs defaultSelectors defaultConfig [.objA S, .str s]
        = .error (.propertyNotFound k)) ∧
    (∀ sk : KeyMap, isEmptyMap sk = false → keyDefined sk k = true →
      negationSelector defaultConfig S k sk = .ok (deleteKey sk k)) := by
  refine ⟨?_, ?_, ?_⟩
  · intro hk hnonempty
    rw [parse_objA_str, executeSelector_negation defaultConfig S s k .vnull [] [] hpre hdrop,
      negationSelector_empty_found defaultConfig S k hk]
    simp only [isEmptyMap_eq_false_of_ne_nil hnonempty, Bool.false_eq_true, if_false]
  · intro hk
    rw [parse_objA_str, executeSelector_negation defaultConfig S s k .vnull [] [] hpre hdrop,
      negationSelector_empty_missing defaultConfig S k hk rfl]
  · intro sk hskne hkd
    exact negationSelector_nonempty defaultConfig S k sk hskne hkd

/-- Witness for the amended C7 theorem at a concrete input. -/
theorem negation_complement_behavior_witness :
    parseMethodArgs defaultSelectors defaultConfig
        [.objA [("a", .numV 1), ("b", .numV 2)], .str "!a"]
      = .ok ⟨[("a", .numV 1), ("b", .numV 2)], [], [("b", .strV "b")], []⟩ := by
  have h := negation_complement_behavior [("a", .numV 1), ("b", .numV 2)] "!a" "a"
    (by decide) (by decide)
  rw [h.1 (by decide) (by decide)]
  decide

end ExtendThis
